import Mathlib

/-!
Verification development for the polyscreener live price subsystem.

The definitions below are a shallow embedding of two pieces of the source:

* `src/services/polymarketService.ts`, class `LivePriceManager`: the
  streaming connection manager (connect, subscribe, flushPendingSubscriptions,
  onStatusChange, processUpdate and the onopen/onclose handlers).
* `src/App.tsx`: the `setMarkets` merge callback that reconciles one price
  tick into the market collection.

Modelling conventions:

* JS numbers are modelled as rationals; the decimal strings in inbound
  frames are represented by their numeric value after Number conversion.
* A JS Set is modelled as a duplicate-free list in insertion order, which
  is exactly the iteration and Array.from order of a JS Set.
* Callback functions are identified by natural numbers; invoking a callback
  is modelled as emitting an output event naming that identifier.
* The field of a tick being absent is modelled with Option; for the asks
  array, absent and empty are merged into the empty list because the source
  guard (data.asks and data.asks.length greater than 0) treats them alike.
* Reference identity of the market collection is modelled as value
  identity: the merge definition returns the input list itself on the
  branches where the source returns the original object.
-/

namespace Polyscreener

/-! ### Inbound tick frames and the tick router (processUpdate) -/

/-- One entry of the ask book of an inbound frame. The source reads only the
price field (data.asks[0].price), so the size field is not represented. -/
structure Ask where
  price : ℚ
deriving DecidableEq, Repr

/-- One inbound frame element, after JSON parsing and Number conversion.
An absent asset id field is `none`; per the source guard, a present but
empty string is also falsy and is kept as `some ""`. -/
structure Tick where
  asset_id : Option String
  asks : List Ask
  last_trade_price : Option ℚ
deriving DecidableEq, Repr

/-- The price variable computed inside processUpdate: the first ask price
when the ask array is non-empty, else the last trade price, else 0. -/
def extractPrice (t : Tick) : ℚ :=
  match t.asks with
  | a :: _ => a.price
  | [] => t.last_trade_price.getD 0

/-- LivePriceManager.processUpdate: returns the (asset id, price) pair
delivered to the registered callback, or `none` when the element is
discarded (null data, missing or empty asset id, or non-positive price). -/
def processUpdate (data : Option Tick) : Option (String × ℚ) :=
  match data with
  | none => none
  | some t =>
    match t.asset_id with
    | none => none
    | some aid =>
      if aid = "" then none
      else if 0 < extractPrice t then some (aid, extractPrice t) else none

/-! ### Manager state machine -/

/-- WebSocket readyState constants. -/
inductive ReadyState
  | CONNECTING
  | OPEN
  | CLOSING
  | CLOSED
deriving DecidableEq, Repr

/-- The outbound subscription message built in flushPendingSubscriptions. -/
structure Frame where
  assets_ids : List String
  type : String
deriving DecidableEq, Repr

/-- Observable outputs of the manager: frames handed to the transport,
tick callback invocations, status callback invocations. -/
inductive OutEv
  | frame (f : Frame)
  | tick (cb : Nat) (assetId : String) (price : ℚ)
  | status (cb : Nat) (isConnected : Bool)
deriving DecidableEq, Repr

/-- The mutable fields of LivePriceManager. The ws field holds the
readyState of the current socket object, or `none` when no socket was ever
created; subscriber is the single global_listener slot of the subscribers
map; statusListeners and pending model the two JS Sets. -/
structure MState where
  ws : Option ReadyState
  subscriber : Option Nat
  statusListeners : List Nat
  pending : List String
  isConnected : Bool
deriving DecidableEq, Repr

/-- The freshly constructed manager. -/
def initState : MState :=
  { ws := none, subscriber := none, statusListeners := [], pending := [],
    isConnected := false }

/-- LivePriceManager.connect: no-op when a socket exists and is OPEN or
CONNECTING; otherwise a new socket is created in the CONNECTING state. -/
def connect (s : MState) : MState :=
  match s.ws with
  | some .OPEN => s
  | some .CONNECTING => s
  | _ => { s with ws := some .CONNECTING }

/-- LivePriceManager.flushPendingSubscriptions: early return when the
pending set is empty or no socket object exists; otherwise send one batched
frame holding the full pending set and clear the pending set. -/
def flushPendingSubscriptions (s : MState) : MState × List OutEv :=
  if s.pending = [] ∨ s.ws = none then (s, [])
  else ({ s with pending := [] }, [.frame { assets_ids := s.pending, type := "market" }])

/-- notifyStatus: invoke every registered status listener with the given
connectivity flag, in insertion order. -/
def notifyStatus (s : MState) (b : Bool) : List OutEv :=
  s.statusListeners.map (fun cb => .status cb b)

/-- Insertion into a JS Set of strings: append if not already present. -/
def setAddStr (l : List String) (x : String) : List String :=
  if x ∈ l then l else l ++ [x]

/-- Insertion into a JS Set of callback identifiers. -/
def setAddNat (l : List Nat) (x : Nat) : List Nat :=
  if x ∈ l then l else l ++ [x]

/-- The onopen handler body: mark connected, notify status listeners with
true, then flush pending subscriptions (the heartbeat timer carries no
state relevant to the claims and is not represented). -/
def onOpenStep (s : MState) : MState × List OutEv :=
  let s1 := { s with ws := some .OPEN, isConnected := true }
  let r := flushPendingSubscriptions s1
  (r.1, notifyStatus s1 true ++ r.2)

/-- The onclose handler body: mark disconnected and notify status
listeners with false; the scheduled reconnect timer is modelled by the
separate reconnect event. -/
def onCloseStep (s : MState) : MState × List OutEv :=
  let s1 := { s with ws := some .CLOSED, isConnected := false }
  (s1, notifyStatus s1 false)

/-- Events driving the manager: the public calls subscribe and
onStatusChange (statusRegister) with its returned unsubscribe closure
(statusUnregister), the socket open, message and close callbacks, and the
firing of the 5 second reconnect timer. -/
inductive Ev
  | subscribe (ids : List String) (cb : Nat)
  | statusRegister (cb : Nat)
  | statusUnregister (cb : Nat)
  | wsOpen
  | wsClose
  | reconnect
  | message (d : Option Tick)
deriving DecidableEq, Repr

/-- One event-handling turn of the single-threaded manager, returning the
new state and the outputs emitted during the turn. The socket callbacks
wsOpen and wsClose fire only for a live socket: wsOpen requires a
CONNECTING socket and wsClose a CONNECTING or OPEN one; in any other state
the event is a no-op. -/
def step (s : MState) (e : Ev) : MState × List OutEv :=
  match e with
  | .subscribe ids cb =>
    if ids = [] then (s, [])
    else
      let s1 := if s.ws = none then connect s else s
      let s2 := { s1 with subscriber := some cb,
                          pending := ids.foldl setAddStr s1.pending }
      if s2.isConnected then flushPendingSubscriptions s2 else (s2, [])
  | .statusRegister cb =>
    ({ s with statusListeners := setAddNat s.statusListeners cb },
     [.status cb s.isConnected])
  | .statusUnregister cb =>
    ({ s with statusListeners := s.statusListeners.filter (fun x => x ≠ cb) }, [])
  | .wsOpen =>
    if s.ws = some .CONNECTING then onOpenStep s else (s, [])
  | .wsClose =>
    if s.ws = some .CONNECTING ∨ s.ws = some .OPEN then onCloseStep s else (s, [])
  | .reconnect => (connect s, [])
  | .message d =>
    if s.ws = some .OPEN then
      match processUpdate d, s.subscriber with
      | some (aid, p), some cb => (s, [.tick cb aid p])
      | _, _ => (s, [])
    else (s, [])

/-- Run a sequence of events, concatenating the outputs in order. -/
def run (s : MState) : List Ev → MState × List OutEv
  | [] => (s, [])
  | e :: es =>
    let r1 := step s e
    let r2 := run r1.1 es
    (r2.1, r1.2 ++ r2.2)

/-- The subscription frames among a list of outputs. -/
def framesOf (outs : List OutEv) : List Frame :=
  outs.filterMap (fun o => match o with | .frame f => some f | _ => none)

/-- States reachable from the freshly constructed manager. -/
inductive Reachable : MState → Prop
  | init : Reachable initState
  | step (s : MState) (e : Ev) : Reachable s → Reachable (step s e).1

/-! ### Market records and the snapshot merge (src/App.tsx) -/

/-- Token, from src/types.ts. -/
structure Token where
  tokenId : String
  clobTokenId : String
  outcome : String
  price : ℚ
  winner : Bool
deriving DecidableEq, Repr

/-- Market, from src/types.ts. The rewards field is typed any in the
source and never inspected by the merge; an arbitrary concrete type
stands in for it. -/
structure Market where
  id : String
  question : String
  conditionId : String
  slug : String
  resolutionSource : String
  endDate : String
  creationDate : String
  image : String
  icon : String
  active : Bool
  closed : Bool
  archived : Bool
  new : Bool
  featured : Bool
  restricted : Bool
  groupItemTitle : String
  description : String
  tags : List String
  tokens : List Token
  rewards : Option String
  volume : ℚ
  liquidity : ℚ
  outcomes : List String
  outcomePrices : List String
  volume24hr : ℚ
  clobTokenIds : List String
deriving DecidableEq, Repr

/-- JS Array.findIndex, as an Option instead of the -1 sentinel. -/
def findIndex (p : α → Bool) : List α → Option Nat
  | [] => none
  | a :: as => if p a then some 0 else (findIndex p as).map (· + 1)

/-- The per-record body of the merge callback in src/App.tsx: locate the
token whose clobTokenId equals the tick asset id; if found and the price
moved by more than 0.0001, rebuild the token list with that one entry
replaced and wrap it in a new record, reporting changed; otherwise return
the original record unchanged. -/
def updateMarket (assetId : String) (price : ℚ) (m : Market) : Market × Bool :=
  match findIndex (fun t => t.clobTokenId == assetId) m.tokens with
  | some i =>
    match m.tokens.get? i with
    | some token =>
      if 1/10000 < |token.price - price| then
        ({ m with tokens := m.tokens.set i { token with price := price } }, true)
      else (m, false)
    | none => (m, false)
  | none => (m, false)

/-- The setMarkets merge callback of src/App.tsx: map the per-record
update over the collection and return the new outer list only when at
least one record changed, otherwise return the original collection. -/
def mergeMarkets (prev : List Market) (assetId : String) (price : ℚ) : List Market :=
  let results := prev.map (updateMarket assetId price)
  if results.any (fun r => r.2) then results.map (fun r => r.1) else prev

/-- A concrete token used to evaluate the merge on closed inputs. -/
def sampleToken : Token :=
  { tokenId := "T1", clobTokenId := "A", outcome := "Yes", price := 1/2,
    winner := false }

/-- A second concrete token with a different instrument id. -/
def sampleToken2 : Token :=
  { tokenId := "T2", clobTokenId := "B", outcome := "No", price := 1/2,
    winner := false }

/-- A concrete market record holding the two sample tokens. -/
def sampleMarket : Market :=
  { id := "M1", question := "Q", conditionId := "C", slug := "s",
    resolutionSource := "", endDate := "", creationDate := "", image := "",
    icon := "", active := true, closed := false, archived := false,
    new := false, featured := false, restricted := false, groupItemTitle := "",
    description := "", tags := [], tokens := [sampleToken, sampleToken2],
    rewards := none, volume := 0, liquidity := 0, outcomes := [],
    outcomePrices := [], volume24hr := 0, clobTokenIds := [] }

/-- A second concrete market record not containing instrument A. -/
def sampleMarket2 : Market :=
  { sampleMarket with
    id := "M2",
    tokens := [{ sampleToken with tokenId := "T3", clobTokenId := "X" }] }

/-! ### Helper lemmas about the manager -/

theorem flush_fst_ws (s : MState) : (flushPendingSubscriptions s).1.ws = s.ws := by
  unfold flushPendingSubscriptions; split <;> rfl

theorem flush_fst_isConnected (s : MState) :
    (flushPendingSubscriptions s).1.isConnected = s.isConnected := by
  unfold flushPendingSubscriptions; split <;> rfl

theorem flush_fst_subscriber (s : MState) :
    (flushPendingSubscriptions s).1.subscriber = s.subscriber := by
  unfold flushPendingSubscriptions; split <;> rfl

theorem flush_fst_statusListeners (s : MState) :
    (flushPendingSubscriptions s).1.statusListeners = s.statusListeners := by
  unfold flushPendingSubscriptions; split <;> rfl

theorem connect_isConnected (s : MState) : (connect s).isConnected = s.isConnected := by
  unfold connect; split <;> rfl

theorem connect_pending (s : MState) : (connect s).pending = s.pending := by
  unfold connect; split <;> rfl

theorem connect_statusListeners (s : MState) :
    (connect s).statusListeners = s.statusListeners := by
  unfold connect; split <;> rfl

theorem step_message_fst (s : MState) (d : Option Tick) :
    (step s (.message d)).1 = s := by
  simp only [step]
  split
  · split <;> rfl
  · rfl

theorem step_subscribe_fst_isConnected (s : MState) (ids : List String) (cb : Nat)
    (h : ¬ ids = []) :
    (step s (.subscribe ids cb)).1.isConnected = s.isConnected := by
  simp only [step, if_neg h]
  split
  · split
    · rw [flush_fst_isConnected]; exact connect_isConnected s
    · exact connect_isConnected s
  · split
    · rw [flush_fst_isConnected]
    · rfl

theorem step_subscribe_fst_ws (s : MState) (ids : List String) (cb : Nat)
    (h : ¬ ids = []) :
    (step s (.subscribe ids cb)).1.ws =
      if s.ws = none then some .CONNECTING else s.ws := by
  simp only [step, if_neg h]
  split
  · rename_i hw
    split
    · rw [flush_fst_ws]; simp [connect, hw]
    · simp [connect, hw]
  · split
    · rw [flush_fst_ws]
    · rfl

/-- The connectivity flag is only set while the socket is OPEN: one step
preserves this. -/
theorem step_preserves_conn_open (s : MState) (e : Ev)
    (ih : s.isConnected = true → s.ws = some .OPEN) :
    (step s e).1.isConnected = true → (step s e).1.ws = some .OPEN := by
  cases e with
  | subscribe ids cb =>
    by_cases hids : ids = []
    · simpa [step, hids] using ih
    · intro hcon
      rw [step_subscribe_fst_isConnected s ids cb hids] at hcon
      rw [step_subscribe_fst_ws s ids cb hids]
      have hws := ih hcon
      rw [if_neg (by simp [hws])]
      exact hws
  | statusRegister cb => simpa [step] using ih
  | statusUnregister cb => simpa [step] using ih
  | wsOpen =>
    by_cases hw : s.ws = some .CONNECTING
    · simp only [step, if_pos hw, onOpenStep]
      intro _
      rw [flush_fst_ws]
    · simpa [step, hw] using ih
  | wsClose =>
    by_cases hw : s.ws = some .CONNECTING ∨ s.ws = some .OPEN
    · simp [step, hw, onCloseStep]
    · simpa [step, hw] using ih
  | reconnect =>
    simp only [step]
    rw [connect_isConnected]
    intro h
    have hws := ih h
    unfold connect
    rw [hws]
    exact hws
  | message d => rw [step_message_fst]; exact ih

/-- On every reachable state, the connectivity flag implies the socket is
OPEN. -/
theorem reachable_conn_open (s : MState) (hs : Reachable s) :
    s.isConnected = true → s.ws = some .OPEN := by
  induction hs with
  | init => intro h; exact absurd h (by simp [initState])
  | step s e _ ih => exact step_preserves_conn_open s e ih

/-- Running any trace from a reachable state stays reachable. -/
theorem run_reachable (s : MState) (hs : Reachable s) (tr : List Ev) :
    Reachable (run s tr).1 := by
  induction tr generalizing s with
  | nil => exact hs
  | cons e es ih => exact ih (step s e).1 (Reachable.step s e hs)

theorem setAddStr_nodup (l : List String) (x : String) (h : l.Nodup) :
    (setAddStr l x).Nodup := by
  unfold setAddStr
  split
  · exact h
  · rename_i hx
    simp [List.nodup_append, h, hx]

theorem foldl_setAddStr_nodup (ids : List String) :
    ∀ l : List String, l.Nodup → (ids.foldl setAddStr l).Nodup := by
  induction ids with
  | nil => exact fun l h => h
  | cons x xs ih => exact fun l h => ih (setAddStr l x) (setAddStr_nodup l x h)

theorem flush_fst_pending_nodup (s : MState) (h : s.pending.Nodup) :
    (flushPendingSubscriptions s).1.pending.Nodup := by
  unfold flushPendingSubscriptions
  split
  · exact h
  · exact List.nodup_nil

/-- One step preserves freedom from duplicates of the pending set. -/
theorem step_preserves_pending_nodup (s : MState) (e : Ev) (h : s.pending.Nodup) :
    (step s e).1.pending.Nodup := by
  cases e with
  | subscribe ids cb =>
    by_cases hids : ids = []
    · simpa [step, hids] using h
    · simp only [step, if_neg hids]
      split
      · split
        · apply flush_fst_pending_nodup
          exact foldl_setAddStr_nodup ids _ (by rw [connect_pending]; exact h)
        · exact foldl_setAddStr_nodup ids _ (by rw [connect_pending]; exact h)
      · split
        · exact flush_fst_pending_nodup _ (foldl_setAddStr_nodup ids _ h)
        · exact foldl_setAddStr_nodup ids _ h
  | statusRegister cb => simpa [step] using h
  | statusUnregister cb => simpa [step] using h
  | wsOpen =>
    by_cases hw : s.ws = some .CONNECTING
    · simp only [step, if_pos hw, onOpenStep]
      exact flush_fst_pending_nodup _ h
    · simpa [step, hw] using h
  | wsClose =>
    by_cases hw : s.ws = some .CONNECTING ∨ s.ws = some .OPEN
    · simpa [step, hw, onCloseStep] using h
    · simpa [step, hw] using h
  | reconnect => simp only [step]; rw [connect_pending]; exact h
  | message d => rw [step_message_fst]; exact h

theorem flush_frames_nodup (s : MState) (h : s.pending.Nodup) (f : Frame)
    (hf : OutEv.frame f ∈ (flushPendingSubscriptions s).2) : f.assets_ids.Nodup := by
  unfold flushPendingSubscriptions at hf
  split at hf
  · simp at hf
  · simp at hf
    rw [hf]
    exact h

theorem notifyStatus_no_frame (s : MState) (b : Bool) (f : Frame) :
    OutEv.frame f ∉ notifyStatus s b := by
  simp [notifyStatus]

/-- Every subscription frame emitted in one step has duplicate-free ids,
provided the pending set is duplicate-free. -/
theorem step_frames_nodup (s : MState) (e : Ev) (h : s.pending.Nodup) (f : Frame)
    (hf : OutEv.frame f ∈ (step s e).2) : f.assets_ids.Nodup := by
  cases e with
  | subscribe ids cb =>
    by_cases hids : ids = []
    · simp [step, hids] at hf
    · simp only [step, if_neg hids] at hf
      split at hf
      · split at hf
        · exact flush_frames_nodup _ (foldl_setAddStr_nodup ids _
            (by rw [connect_pending]; exact h)) f hf
        · simp at hf
      · split at hf
        · exact flush_frames_nodup _ (foldl_setAddStr_nodup ids _ h) f hf
        · simp at hf
  | statusRegister cb => simp [step] at hf
  | statusUnregister cb => simp [step] at hf
  | wsOpen =>
    by_cases hw : s.ws = some .CONNECTING
    · simp only [step, if_pos hw, onOpenStep] at hf
      rcases List.mem_append.mp hf with hf1 | hf2
      · exact absurd hf1 (notifyStatus_no_frame _ true f)
      · exact flush_frames_nodup _ (by simpa using h) f hf2
    · simp [step, hw] at hf
  | wsClose =>
    by_cases hw : s.ws = some .CONNECTING ∨ s.ws = some .OPEN
    · simp only [step, if_pos hw, onCloseStep] at hf
      exact absurd hf (notifyStatus_no_frame _ false f)
    · simp [step, hw] at hf
  | reconnect => simp [step] at hf
  | message d =>
    simp only [step] at hf
    split at hf
    · split at hf <;> simp at hf
    · simp at hf

/-- Every subscription frame emitted along any trace has duplicate-free
ids, provided the starting pending set is duplicate-free. -/
theorem run_frames_nodup (tr : List Ev) :
    ∀ s : MState, s.pending.Nodup →
      ∀ f : Frame, OutEv.frame f ∈ (run s tr).2 → f.assets_ids.Nodup := by
  induction tr with
  | nil => intro s _ f hf; simp [run] at hf
  | cons e es ih =>
    intro s h f hf
    simp only [run] at hf
    rcases List.mem_append.mp hf with hf1 | hf2
    · exact step_frames_nodup s e h f hf1
    · exact ih (step s e).1 (step_preserves_pending_nodup s e h) f hf2

/-! ### Helper lemmas about the merge -/

theorem findIndex_some {α : Type} (p : α → Bool) :
    ∀ (l : List α) (i : Nat), findIndex p l = some i →
      ∃ a, l.get? i = some a ∧ p a = true := by
  intro l
  induction l with
  | nil => intro i h; exact absurd h (by simp [findIndex])
  | cons a as ih =>
    intro i h
    unfold findIndex at h
    split at h
    · rename_i hp
      cases h
      exact ⟨a, rfl, hp⟩
    · cases hfa : findIndex p as with
      | none => rw [hfa] at h; simp at h
      | some j =>
        rw [hfa] at h
        simp only [Option.map_some'] at h
        cases h
        obtain ⟨b, hb, hpb⟩ := ih j hfa
        exact ⟨b, by simpa using hb, hpb⟩

theorem findIndex_eq_none {α : Type} (p : α → Bool) :
    ∀ l : List α, (∀ a ∈ l, p a = false) → findIndex p l = none := by
  intro l
  induction l with
  | nil => intro _; rfl
  | cons a as ih =>
    intro h
    unfold findIndex
    rw [if_neg (by simp [h a (by simp)])]
    rw [ih (fun b hb => h b (by simp [hb]))]
    rfl

/-- When every matching token already sits within the tolerance, the
per-record update reports no change and returns the record itself. -/
theorem updateMarket_noop (assetId : String) (price : ℚ) (m : Market)
    (h : ∀ t ∈ m.tokens, t.clobTokenId = assetId → |t.price - price| < 1/10000) :
    updateMarket assetId price m = (m, false) := by
  unfold updateMarket
  cases hfi : findIndex (fun t => t.clobTokenId == assetId) m.tokens with
  | none => rfl
  | some i =>
    obtain ⟨tok, hget, hp⟩ := findIndex_some _ _ _ hfi
    dsimp only
    rw [hget]
    have htol : |tok.price - price| < 1/10000 :=
      h tok (List.get?_mem hget) (by simpa using hp)
    dsimp only
    rw [if_neg (not_lt.mpr (le_of_lt htol))]

/-- Any pair the tick router forwards carries a strictly positive price. -/
theorem processUpdate_pos (d : Option Tick) (aid : String) (p : ℚ)
    (h : processUpdate d = some (aid, p)) : 0 < p := by
  cases d with
  | none => simp [processUpdate] at h
  | some t =>
    obtain ⟨oa, asks, ltp⟩ := t
    cases oa with
    | none => simp [processUpdate] at h
    | some a =>
      by_cases ha : a = ""
      · simp [processUpdate, ha] at h
      · by_cases hp : 0 < extractPrice ⟨some a, asks, ltp⟩
        · have hval : processUpdate (some ⟨some a, asks, ltp⟩)
              = some (a, extractPrice ⟨some a, asks, ltp⟩) := by
            simp [processUpdate, ha, hp]
          rw [hval] at h
          obtain ⟨rfl, rfl⟩ : a = aid ∧ extractPrice ⟨some a, asks, ltp⟩ = p := by
            simpa using h
          exact hp
        · simp [processUpdate, ha, hp] at h

/-! ### Claim theorems -/

/-- C10: calling subscribe with an empty id list is a complete no-op: the
state (socket, registered tick callback, status listeners, pending set,
connectivity flag) is untouched and nothing is sent or invoked. -/
theorem subscribe_empty_is_noop (s : MState) (cb : Nat) :
    step s (.subscribe [] cb) = (s, []) := rfl

/-- C1 (code bug evidence): after subscribe of instrument A, a successful
open (which flushes A), a close, the reconnect timer and a successful
reopen, the only subscription frame ever sent is the one from the first
open; the reopen portion of the trace sends no frame at all, so the id A
is never resubscribed on the new connection. -/
theorem reconnect_sends_no_resubscription_frame :
    framesOf (run initState
        [.subscribe ["A"] 0, .wsOpen, .wsClose, .reconnect, .wsOpen]).2
      = [{ assets_ids := ["A"], type := "market" }] ∧
    framesOf (run (run initState [.subscribe ["A"] 0, .wsOpen, .wsClose]).1
        [.reconnect, .wsOpen]).2 = [] := by
  constructor <;> rfl

/-- C2 counterexample: on a tick whose ask array is not sorted ascending,
the delivered price is the first ask (1/2), although a strictly lower ask
(3/10) is present in the array, so the delivered price is not the lowest
ask. -/
theorem delivered_price_is_first_ask_not_lowest :
    processUpdate (some { asset_id := some "A",
                          asks := [{ price := 1/2 }, { price := 3/10 }],
                          last_trade_price := some (9/10) })
        = some ("A", 1/2) ∧
    ({ price := 3/10 } : Ask) ∈ [({ price := 1/2 } : Ask), { price := 3/10 }] ∧
    (3/10 : ℚ) < 1/2 := by
  refine ⟨?_, List.mem_cons_of_mem _ (List.mem_cons_self _ _), by norm_num⟩
  norm_num [processUpdate, extractPrice, show ("A" : String) ≠ "" by decide]

/-- C2 (amended): on a tick with a non-empty ask array and a last-trade
price, the delivered price is the price of the first ask entry — the
lowest ask whenever the array is sorted ascending by price — and never
the last-trade price (the result does not depend on it); the last-trade
price is used only when the ask array is absent or empty. -/
theorem price_extraction_first_ask_priority (aid : String) (a : Ask)
    (rest : List Ask) (ltp : ℚ) (haid : aid ≠ "") :
    (processUpdate (some { asset_id := some aid, asks := a :: rest,
                           last_trade_price := some ltp })
       = if 0 < a.price then some (aid, a.price) else none) ∧
    (processUpdate (some { asset_id := some aid, asks := a :: rest,
                           last_trade_price := some ltp })
       = processUpdate (some { asset_id := some aid, asks := a :: rest,
                               last_trade_price := none })) ∧
    (List.Sorted (· ≤ ·) ((a :: rest).map Ask.price) →
       ∀ b ∈ a :: rest, a.price ≤ b.price) ∧
    (0 < ltp →
       processUpdate (some { asset_id := some aid, asks := [],
                             last_trade_price := some ltp }) = some (aid, ltp)) := by
  refine ⟨?_, ?_, ?_, ?_⟩
  · simp [processUpdate, extractPrice, haid]
  · simp [processUpdate, extractPrice, haid]
  · intro hs b hb
    simp only [List.map_cons] at hs
    rcases List.mem_cons.mp hb with rfl | hbr
    · exact le_refl _
    · exact List.rel_of_sorted_cons hs _ (List.mem_map_of_mem Ask.price hbr)
  · intro hltp
    simp [processUpdate, extractPrice, haid, hltp]

theorem price_extraction_first_ask_priority_witness :
    processUpdate (some { asset_id := some "A", asks := [{ price := 2/5 }],
                          last_trade_price := some (9/10) })
      = some ("A", 2/5) := by
  have h := price_extraction_first_ask_priority "A" { price := 2/5 } [] (9/10)
    (by decide)
  rw [h.1, if_pos (by norm_num)]

/-- C8: the tick router forwards only strictly positive prices; an element
with no asset id, or with neither a usable ask nor a last-trade price, or
whose extracted price is not strictly positive, produces no callback
invocation, and every tick event a message step emits is positive. -/
theorem tick_router_positive_price_only (d : Option Tick) :
    (∀ (aid : String) (p : ℚ), processUpdate d = some (aid, p) → 0 < p) ∧
    (∀ t : Tick, d = some t → t.asset_id = none → processUpdate d = none) ∧
    (∀ t : Tick, d = some t → t.asks = [] → t.last_trade_price = none →
       processUpdate d = none) ∧
    (∀ t : Tick, d = some t → extractPrice t ≤ 0 → processUpdate d = none) ∧
    (∀ (s : MState) (cb : Nat) (aid : String) (p : ℚ),
       OutEv.tick cb aid p ∈ (step s (.message d)).2 → 0 < p) := by
  refine ⟨fun aid p h => processUpdate_pos d aid p h, ?_, ?_, ?_, ?_⟩
  · rintro ⟨oa, asks, ltp⟩ rfl ha
    cases ha
    rfl
  · rintro ⟨oa, asks, ltp⟩ rfl hasks hltp
    cases hasks
    cases hltp
    cases oa with
    | none => rfl
    | some a => simp [processUpdate, extractPrice]
  · rintro ⟨oa, asks, ltp⟩ rfl hle
    cases oa with
    | none => rfl
    | some a =>
      have hnlt : ¬ 0 < extractPrice ⟨some a, asks, ltp⟩ := not_lt.mpr hle
      simp [processUpdate, hnlt]
  · intro s cb aid p hmem
    simp only [step] at hmem
    split at hmem
    · split at hmem
      · rename_i aid' p' cb' hpu hsub
        simp only [List.mem_singleton] at hmem
        rw [OutEv.tick.injEq] at hmem
        obtain ⟨rfl, rfl, rfl⟩ := hmem
        exact processUpdate_pos d _ _ hpu
      · simp at hmem
    · simp at hmem

theorem tick_router_positive_price_only_witness :
    processUpdate (some { asset_id := some "C", asks := [],
                          last_trade_price := some 0 }) = none ∧
    processUpdate (some { asset_id := some "D", asks := [],
                          last_trade_price := none }) = none :=
  ⟨(tick_router_positive_price_only
      (some { asset_id := some "C", asks := [], last_trade_price := some 0 })).2.2.2.1
      _ rfl (by norm_num [extractPrice]),
   (tick_router_positive_price_only
      (some { asset_id := some "D", asks := [], last_trade_price := none })).2.2.1
      _ rfl rfl rfl⟩

/-- C3 counterexample: the flush guard of the source is on a null socket,
not on openness. In the reachable state after subscribe, open, close and a
second subscribe (ids queued while disconnected), the socket object is
CLOSED and the pending set holds B, and flush applied at that state does
send a frame and clears the pending set, although the transport is not
open — refuting the claimed sends-only-if-open direction. -/
theorem flush_sends_despite_closed_transport :
    ((run initState [.subscribe ["A"] 0, .wsOpen, .wsClose,
        .subscribe ["B"] 1]).1.ws = some .CLOSED) ∧
    ((run initState [.subscribe ["A"] 0, .wsOpen, .wsClose,
        .subscribe ["B"] 1]).1.pending = ["B"]) ∧
    ((flushPendingSubscriptions (run initState [.subscribe ["A"] 0, .wsOpen,
        .wsClose, .subscribe ["B"] 1]).1).2
      = [.frame { assets_ids := ["B"], type := "market" }]) ∧
    ((flushPendingSubscriptions (run initState [.subscribe ["A"] 0, .wsOpen,
        .wsClose, .subscribe ["B"] 1]).1).1.pending = []) := by
  refine ⟨rfl, rfl, rfl, rfl⟩

/-- C3 (amended): for every manager state, flush sends a message if and
only if the pending set is non-empty and a socket object exists — the
source guard is on a null socket, not on openness, so flush would also
send on a closed socket; when it sends, it sends exactly one batched
frame of the form assets ids plus type market holding the full pending
set and then clears the pending set; when it does not send, the whole
state — the pending set included — is left unchanged. At the states
where the code invokes flush synchronously from subscribe, connectivity
holds, and on every reachable state connectivity implies an OPEN
socket. -/
theorem flush_sends_iff_pending_nonempty_and_socket_exists (s : MState) :
    (s.pending ≠ [] → s.ws ≠ none →
       flushPendingSubscriptions s =
         ({ s with pending := [] },
          [.frame { assets_ids := s.pending, type := "market" }])) ∧
    (s.pending = [] ∨ s.ws = none → flushPendingSubscriptions s = (s, [])) ∧
    (Reachable s → s.isConnected = true → s.ws = some .OPEN) := by
  refine ⟨?_, ?_, fun hs => reachable_conn_open s hs⟩
  · intro hp hw
    unfold flushPendingSubscriptions
    rw [if_neg (by simp [hp, hw])]
  · intro hpw
    unfold flushPendingSubscriptions
    rw [if_pos hpw]

theorem flush_sends_iff_pending_nonempty_and_socket_exists_witness :
    flushPendingSubscriptions
        { ws := some .OPEN, subscriber := some 0, statusListeners := [],
          pending := ["A"], isConnected := true }
      = ({ ws := some .OPEN, subscriber := some 0, statusListeners := [],
           pending := [], isConnected := true },
         [.frame { assets_ids := ["A"], type := "market" }]) :=
  (flush_sends_iff_pending_nonempty_and_socket_exists
      { ws := some .OPEN, subscriber := some 0, statusListeners := [],
        pending := ["A"], isConnected := true }).1
    (by decide) (by decide)

/-- C4 counterexample: in the reachable state after subscribe, open and
close, the manager is disconnected, yet a subscribe call with a non-empty
id list leaves the socket in the CLOSED state — it does not trigger
connect, although connect is not a no-op there (it would create a
CONNECTING socket). -/
theorem subscribe_does_not_connect_after_close :
    ((run initState [.subscribe ["A"] 0, .wsOpen, .wsClose]).1.isConnected
        = false) ∧
    ((step (run initState [.subscribe ["A"] 0, .wsOpen, .wsClose]).1
        (.subscribe ["B"] 1)).1.ws = some .CLOSED) ∧
    (connect (run initState [.subscribe ["A"] 0, .wsOpen, .wsClose]).1
        ≠ (run initState [.subscribe ["A"] 0, .wsOpen, .wsClose]).1) := by
  refine ⟨rfl, rfl, by decide⟩

/-- C4 (amended): a subscribe call with a non-empty id list triggers
connect exactly when no socket object exists (the source guard is on a
null socket, not on connectivity), leaving a CONNECTING socket; after a
close the stale socket object persists, so subscribe does not call
connect and reconnection is left to the scheduled reconnect timer; and
connect itself is idempotent, a no-op whenever a socket is already OPEN
or CONNECTING. -/
theorem subscribe_connects_only_when_no_socket :
    (∀ (s : MState) (ids : List String) (cb : Nat), ids ≠ [] → s.ws = none →
       (step s (.subscribe ids cb)).1.ws = some .CONNECTING) ∧
    (∀ s : MState, s.ws = some .OPEN ∨ s.ws = some .CONNECTING →
       connect s = s) := by
  constructor
  · intro s ids cb hids hw
    rw [step_subscribe_fst_ws s ids cb hids, if_pos hw]
  · intro s hws
    unfold connect
    rcases hws with h | h <;> rw [h]

theorem subscribe_connects_only_when_no_socket_witness :
    (step initState (.subscribe ["A"] 0)).1.ws = some .CONNECTING ∧
    connect (run initState [.subscribe ["A"] 0, .wsOpen]).1
      = (run initState [.subscribe ["A"] 0, .wsOpen]).1 :=
  ⟨subscribe_connects_only_when_no_socket.1 initState ["A"] 0
      (by simp) rfl,
   subscribe_connects_only_when_no_socket.2 _ (Or.inl rfl)⟩

/-- C7: an instrument id passed to subscribe more than once appears at
most once in any outbound subscription frame: every frame emitted along
any event trace from the fresh manager has a duplicate-free id list. -/
theorem outbound_frames_have_no_duplicate_ids (tr : List Ev) (f : Frame)
    (hf : OutEv.frame f ∈ (run initState tr).2) : f.assets_ids.Nodup :=
  run_frames_nodup tr initState List.nodup_nil f hf

theorem outbound_frames_have_no_duplicate_ids_witness :
    OutEv.frame { assets_ids := ["A"], type := "market" } ∈
      (run initState [.subscribe ["A", "A"] 0, .wsOpen]).2 ∧
    (["A"] : List String).Nodup :=
  ⟨by decide,
   outbound_frames_have_no_duplicate_ids [.subscribe ["A", "A"] 0, .wsOpen]
     { assets_ids := ["A"], type := "market" } (by decide)⟩

/-- C5: a tick that changes nothing — every token matching the instrument
id is already within the 1e-4 tolerance of the new price, which covers
both the small-difference case and the no-matching-token case — leaves the
collection untouched: the merge returns the original collection itself. -/
theorem merge_noop_returns_original_collection (prev : List Market)
    (aid : String) (price : ℚ)
    (h : ∀ m ∈ prev, ∀ t ∈ m.tokens, t.clobTokenId = aid →
           |t.price - price| < 1/10000) :
    mergeMarkets prev aid price = prev := by
  unfold mergeMarkets
  have hany : (prev.map (updateMarket aid price)).any (fun r => r.2) = false := by
    rw [List.any_eq_false]
    intro r hr
    obtain ⟨m, hm, hrm⟩ := List.mem_map.mp hr
    rw [← hrm, updateMarket_noop aid price m (h m hm)]
    simp
  simp [hany]

theorem merge_noop_returns_original_collection_witness :
    mergeMarkets [sampleMarket, sampleMarket2] "A" (1/2)
      = [sampleMarket, sampleMarket2] := by
  apply merge_noop_returns_original_collection
  intro m hm t ht htid
  fin_cases hm <;>
    simp only [sampleMarket, sampleMarket2, sampleToken, sampleToken2] at ht <;>
    fin_cases ht <;> norm_num

/-- C6: a tick that does update rewrites only the price field of the first
token whose id equals the instrument id inside the matched record: every
record with no matching token is returned unchanged by the per-record
update, the rebuilt record differs from the original only in its token
list, every token at another index is unchanged, the replaced token
differs only in its price field, and every record of the collection with
no matching token keeps its exact value at its position after the merge. -/
theorem merge_referential_isolation (prev : List Market) (aid : String)
    (price : ℚ) :
    (∀ m : Market, (∀ t ∈ m.tokens, t.clobTokenId ≠ aid) →
       updateMarket aid price m = (m, false)) ∧
    (∀ (m : Market) (i : Nat) (token : Token),
       findIndex (fun t => t.clobTokenId == aid) m.tokens = some i →
       m.tokens.get? i = some token →
       1/10000 < |token.price - price| →
         updateMarket aid price m =
           ({ m with tokens := m.tokens.set i { token with price := price } },
            true) ∧
         (∀ j : Nat, j ≠ i →
            (m.tokens.set i { token with price := price }).get? j
              = m.tokens.get? j) ∧
         (m.tokens.set i { token with price := price }).get? i
            = some { token with price := price }) ∧
    (∀ (k : Nat) (m : Market), prev.get? k = some m →
       (∀ t ∈ m.tokens, t.clobTokenId ≠ aid) →
       (mergeMarkets prev aid price).get? k = some m) := by
  refine ⟨?_, ?_, ?_⟩
  · intro m hm
    exact updateMarket_noop aid price m
      (fun t ht habs => absurd habs (hm t ht))
  · intro m i token hfi hget hgt
    have hlen : i < m.tokens.length := by
      by_contra hlt
      rw [List.get?_eq_none.mpr (Nat.le_of_not_lt hlt)] at hget
      exact Option.noConfusion hget
    refine ⟨?_, ?_, ?_⟩
    · unfold updateMarket
      rw [hfi]
      dsimp only
      rw [hget]
      dsimp only
      rw [if_pos hgt]
    · intro j hj
      exact List.get?_set_ne _ _ (fun hh => hj hh.symm)
    · exact List.get?_set_eq_of_lt _ hlen
  · intro k m hk hm
    have hup : updateMarket aid price m = (m, false) :=
      updateMarket_noop aid price m (fun t ht habs => absurd habs (hm t ht))
    unfold mergeMarkets
    dsimp only
    split
    · rw [List.get?_map, List.get?_map, hk]
      simp [hup]
    · exact hk

theorem merge_referential_isolation_witness :
    updateMarket "A" (3/4) sampleMarket
      = ({ sampleMarket with
           tokens := sampleMarket.tokens.set 0
             { sampleToken with price := 3/4 } }, true) ∧
    updateMarket "A" (3/4) sampleMarket2 = (sampleMarket2, false) := by
  constructor
  · have h := ((merge_referential_isolation [sampleMarket] "A" (3/4)).2.1
      sampleMarket 0 sampleToken
      (by simp [sampleMarket, sampleToken, sampleToken2, findIndex])
      (by simp [sampleMarket])
      (by norm_num [sampleToken, lt_abs])).1
    exact h
  · apply (merge_referential_isolation [sampleMarket2] "A" (3/4)).1
    intro t ht
    simp only [sampleMarket2, sampleMarket, sampleToken] at ht
    fin_cases ht
    simp

/-! ### Status broadcaster lemmas -/

theorem mem_setAddNat (l : List Nat) (x y : Nat) :
    y ∈ setAddNat l x ↔ y ∈ l ∨ y = x := by
  unfold setAddNat
  split
  · rename_i hx
    constructor
    · exact fun h => Or.inl h
    · rintro (h | rfl)
      · exact h
      · exact hx
  · simp

theorem flush_no_status (s : MState) (cb : Nat) (b : Bool) :
    OutEv.status cb b ∉ (flushPendingSubscriptions s).2 := by
  unfold flushPendingSubscriptions
  split <;> simp

theorem mem_notifyStatus (s : MState) (b b2 : Bool) (cb : Nat)
    (h : OutEv.status cb b ∈ notifyStatus s b2) : cb ∈ s.statusListeners := by
  unfold notifyStatus at h
  obtain ⟨c, hc, hceq⟩ := List.mem_map.mp h
  rw [OutEv.status.injEq] at hceq
  exact hceq.1 ▸ hc

/-- A callback that is not registered and is not registered by the event
stays unregistered and receives no status invocation in that step. -/
theorem step_no_status_for_unregistered (s : MState) (e : Ev) (cb : Nat)
    (hnot : cb ∉ s.statusListeners) (hne : e ≠ .statusRegister cb) :
    cb ∉ (step s e).1.statusListeners ∧
      ∀ b : Bool, OutEv.status cb b ∉ (step s e).2 := by
  cases e with
  | subscribe ids cb2 =>
    by_cases hids : ids = []
    · exact ⟨by simpa [step, hids] using hnot, fun b => by simp [step, hids]⟩
    · constructor
      · simp only [step, if_neg hids]
        split
        · split
          · rw [flush_fst_statusListeners]; exact fun hh => hnot
              (by simpa [connect_statusListeners] using hh)
          · exact fun hh => hnot (by simpa [connect_statusListeners] using hh)
        · split
          · rw [flush_fst_statusListeners]; exact hnot
          · exact hnot
      · intro b
        simp only [step, if_neg hids]
        split
        · split
          · exact flush_no_status _ cb b
          · simp
        · split
          · exact flush_no_status _ cb b
          · simp
  | statusRegister cb2 =>
    have hcb2 : cb2 ≠ cb := fun hh => hne (by rw [hh])
    constructor
    · intro hmem
      simp only [step] at hmem
      rcases (mem_setAddNat _ _ _).mp hmem with h | h
      · exact hnot h
      · exact hcb2 h.symm
    · intro b hmem
      simp only [step, List.mem_singleton] at hmem
      rw [OutEv.status.injEq] at hmem
      exact hcb2 hmem.1.symm
  | statusUnregister cb2 =>
    constructor
    · intro hmem
      simp only [step] at hmem
      exact hnot (List.mem_of_mem_filter hmem)
    · intro b; simp [step]
  | wsOpen =>
    by_cases hw : s.ws = some .CONNECTING
    · constructor
      · simp only [step, if_pos hw, onOpenStep]
        rw [flush_fst_statusListeners]
        exact hnot
      · intro b
        simp only [step, if_pos hw, onOpenStep]
        intro hmem
        rcases List.mem_append.mp hmem with h | h
        · exact hnot (by simpa using mem_notifyStatus _ b true cb h)
        · exact flush_no_status _ cb b h
    · exact ⟨by simpa [step, hw] using hnot, fun b => by simp [step, hw]⟩
  | wsClose =>
    by_cases hw : s.ws = some .CONNECTING ∨ s.ws = some .OPEN
    · constructor
      · simpa [step, hw, onCloseStep] using hnot
      · intro b
        simp only [step, if_pos hw, onCloseStep]
        intro hmem
        exact hnot (by simpa using mem_notifyStatus _ b false cb hmem)
    · exact ⟨by simpa [step, hw] using hnot, fun b => by simp [step, hw]⟩
  | reconnect =>
    constructor
    · simp only [step]
      rw [connect_statusListeners]
      exact hnot
    · intro b; simp [step]
  | message d =>
    constructor
    · rw [step_message_fst]; exact hnot
    · intro b
      simp only [step]
      split
      · split <;> simp
      · simp

/-- Along a trace that never re-registers a currently unregistered status
callback, that callback is never invoked. -/
theorem run_no_status_for_unregistered (tr : List Ev) :
    ∀ (s : MState) (cb : Nat), cb ∉ s.statusListeners →
      (∀ e ∈ tr, e ≠ .statusRegister cb) →
      ∀ b : Bool, OutEv.status cb b ∉ (run s tr).2 := by
  induction tr with
  | nil => intro s cb _ _ b; simp [run]
  | cons e es ih =>
    intro s cb hnot htr b hmem
    simp only [run] at hmem
    obtain ⟨h1, h2⟩ :=
      step_no_status_for_unregistered s e cb hnot (htr e (by simp))
    rcases List.mem_append.mp hmem with h | h
    · exact h2 b h
    · exact ih (step s e).1 cb h1 (fun e2 he2 => htr e2 (by simp [he2])) b h

/-- C9: onStatusChange immediately invokes the new observer exactly once
with the current connection state (true when connected, false otherwise),
registers it for future transitions, and the returned unsubscribe closure
removes it, after which no later event that does not re-register it ever
invokes it again. -/
theorem status_observer_latch_and_unsubscribe :
    (∀ (s : MState) (cb : Nat),
       (step s (.statusRegister cb)).2 = [.status cb s.isConnected]) ∧
    (∀ (s : MState) (cb : Nat),
       cb ∈ (step s (.statusRegister cb)).1.statusListeners) ∧
    (∀ (s : MState) (cb : Nat),
       cb ∉ (step s (.statusUnregister cb)).1.statusListeners) ∧
    (∀ (s : MState) (cb : Nat) (tr : List Ev),
       cb ∉ s.statusListeners → (∀ e ∈ tr, e ≠ .statusRegister cb) →
       ∀ b : Bool, OutEv.status cb b ∉ (run s tr).2) := by
  refine ⟨fun s cb => rfl, ?_, ?_, ?_⟩
  · intro s cb
    simp only [step]
    exact (mem_setAddNat _ _ _).mpr (Or.inr rfl)
  · intro s cb hmem
    simp only [step] at hmem
    have hp := List.of_mem_filter hmem
    simp at hp
  · intro s cb tr h1 h2 b
    exact run_no_status_for_unregistered tr s cb h1 h2 b

theorem status_observer_latch_and_unsubscribe_witness :
    (step (run initState [.subscribe ["A"] 0, .wsOpen]).1
        (.statusRegister 7)).2 = [.status 7 true] ∧
    OutEv.status 7 false ∉
      (run (step (step initState (.statusRegister 7)).1
              (.statusUnregister 7)).1
         [.subscribe ["A"] 0, .wsOpen, .wsClose]).2 :=
  ⟨status_observer_latch_and_unsubscribe.1
      (run initState [.subscribe ["A"] 0, .wsOpen]).1 7,
   status_observer_latch_and_unsubscribe.2.2.2 _ 7
      [.subscribe ["A"] 0, .wsOpen, .wsClose] (by decide) (by decide) false⟩

end Polyscreener
